import Mathlib

/-!
# Radar scanner control loop (`src/main.cpp`)

A shallow embedding of the Arduino sketch that sweeps a stepper motor back and
forth and pauses while the ultrasonic sensor reports a close object.

Modelling conventions.

* The two globals `currentSteps` and `isClockwise` form the record `Globals`;
  every function of the sketch that touches them becomes a function from
  `Globals` to the new `Globals` together with the list of externally visible
  calls it made, in program order (`Effect`).
* `int` values are mathematical integers (`Int`).  Signed overflow is undefined
  in C++, and every state reachable from start-up keeps
  `0 ≤ currentSteps ≤ 1030`, far inside even a 16-bit `int`.  The model agrees
  with the source wherever `currentSteps ± STEP_SIZE` stays between `INT_MIN`
  and `INT_MAX`.
* `float`/`double` values are rationals (`ℚ`).  Every finite floating-point
  number is a rational and comparison of finite values is exact; the value
  `getDistanceCM()` returns is finite because it is computed from a `long`.
  The arithmetic on them is exact rational arithmetic.
* The value returned by `getDistanceCM()` on line 102 is the external input of
  one run of `loop()`, so `loop` takes it as its first argument;
  `getDistanceCM` gives that value as a function of the echo duration.
* The text `Serial.print` writes is produced by the Arduino core, which is not
  part of the sources; `serialText` and `decimalText` model it from the
  specification's description of the telemetry stream.
-/

namespace Radar

/-! ## Configuration constants (lines 8, 22, 23) -/

/-- Line 8: `const int STEPS_PER_REV = 2048;`. -/
def STEPS_PER_REV : Int := 2048

/-- Line 22: `const int MAX_STEPS = 1024;`. -/
def MAX_STEPS : Int := 1024

/-- Line 23: `const int STEP_SIZE = 10;`. -/
def STEP_SIZE : Int := 10

/-- The least value of `int` on the 16-bit AVR boards, the narrowest range C++
allows for `int`. -/
def INT_MIN : Int := -32768

/-- The greatest value of `int` on the 16-bit AVR boards, the narrowest range
C++ allows for `int`. -/
def INT_MAX : Int := 32767

/-! ## State and observable calls -/

/-- The global variables of the sketch (lines 29-30). -/
structure Globals where
  /-- Line 29: `int currentSteps`, the absolute position in steps. -/
  currentSteps : Int
  /-- Line 30: `bool isClockwise`, the movement direction flag. -/
  isClockwise : Bool
  deriving DecidableEq

/-- Values of the globals at start-up (initialisers on lines 29-30; `setup()`
does not touch them). -/
def start : Globals := ⟨0, true⟩

/-- An externally visible call made by the sketch: a write to the serial port,
a command to the stepper driver, or a blocking delay. -/
inductive Effect where
  /-- `Serial.print(s)` with a string literal. -/
  | printStr (s : String)
  /-- `Serial.println(s)` with a string literal. -/
  | printlnStr (s : String)
  /-- `Serial.print(n)` with an `int`. -/
  | printInt (n : Int)
  /-- `Serial.print(x)` with a `float` or `double`. -/
  | printFloat (x : ℚ)
  /-- `Serial.println(x)` with a `float`. -/
  | printlnFloat (x : ℚ)
  /-- `stepper.step(n)`: the motor command. -/
  | step (n : Int)
  /-- `delay(ms)`. -/
  | delay (ms : Nat)
  deriving DecidableEq

/-! ## The functions of the sketch -/

/-- Lines 52-65: the value `getDistanceCM()` returns, `duration * 0.034 / 2`,
given the echo duration in microseconds that `pulseIn` returned on line 61.
The trigger pulse of lines 54-58 only drives the sensor pin; its outcome is the
`duration` passed here. -/
def getDistanceCM (duration : Int) : ℚ :=
  (duration : ℚ) * 0.034 / 2

/-- Lines 71-84: `moveStepper(steps)` commands the motor, adds `steps` to
`currentSteps` and prints a debug line. -/
def moveStepper (steps : Int) (g : Globals) : Globals × List Effect :=
  let g1 : Globals := { g with currentSteps := g.currentSteps + steps }
  (g1,
    [ Effect.step steps,
      Effect.printStr "Moved ",
      Effect.printStr (if steps > 0 then "CW " else "CCW "),
      Effect.printInt |steps|,
      Effect.printStr " steps (Total: ",
      Effect.printInt g1.currentSteps,
      Effect.printStr ", Angle: ",
      Effect.printFloat ((g1.currentSteps : ℚ) * 360.0 / (STEPS_PER_REV : ℚ)),
      Effect.printlnStr "Â°)" ])

/-- Lines 86-95: `updateDirection()` sets the direction flag from the position
and prints a notice in each of the two branches that assign it. -/
def updateDirection (g : Globals) : Globals × List Effect :=
  if g.currentSteps ≥ MAX_STEPS then
    ({ g with isClockwise := false }, [Effect.printlnStr "Direction changed to CCW"])
  else if g.currentSteps ≤ 0 then
    ({ g with isClockwise := true }, [Effect.printlnStr "Direction changed to CW"])
  else
    (g, [])

/-- Line 105: the local `currentAngle` of `loop()`,
`currentSteps * 0.0 / STEPS_PER_REV`. -/
def currentAngle (g : Globals) : ℚ :=
  (g.currentSteps : ℚ) * 0.0 / (STEPS_PER_REV : ℚ)

/-- Lines 100-129: one run of `loop()`, given the value `distance` that
`getDistanceCM()` returned on line 102. -/
def loop (distance : ℚ) (g : Globals) : Globals × List Effect :=
  let sent : List Effect :=
    [ Effect.printFloat (currentAngle g), Effect.printStr ",", Effect.printlnFloat distance ]
  if distance < 17.0 then
    (g, sent ++ [Effect.printlnStr "Object detected < 17cm. Paused.", Effect.delay 200])
  else
    let moved := if g.isClockwise then moveStepper STEP_SIZE g else moveStepper (-STEP_SIZE) g
    let turned := updateDirection moved.1
    (turned.1, sent ++ moved.2 ++ turned.2 ++ [Effect.delay 50])

/-- The globals after `loop()` has run once for each distance sample of the
list, in order, starting from `g`. -/
def runLoop (distances : List ℚ) (g : Globals) : Globals :=
  distances.foldl (fun s d => (loop d s).1) g

/-! ## Views used to state properties -/

/-- Direction of travel, as the specification names it. -/
inductive Direction where
  | Clockwise
  | CounterClockwise
  deriving DecidableEq

/-- The direction encoded by the flag `isClockwise`. -/
def Globals.direction (g : Globals) : Direction :=
  if g.isClockwise then Direction.Clockwise else Direction.CounterClockwise

/-- The motor commands among a list of calls: the arguments of the
`stepper.step` calls, in order. -/
def motorCommands : List Effect → List Int
  | [] => []
  | Effect.step n :: rest => n :: motorCommands rest
  | _ :: rest => motorCommands rest

/-- The notice `loop()` prints on a paused run (line 112). -/
def pauseNotice : Effect := Effect.printlnStr "Object detected < 17cm. Paused."

/-- The notice `updateDirection()` prints when it sets the given direction
(lines 89 and 93). -/
def directionNotice : Direction → Effect
  | Direction.Clockwise => Effect.printlnStr "Direction changed to CW"
  | Direction.CounterClockwise => Effect.printlnStr "Direction changed to CCW"

/-- The direction-change notices among a list of calls, in order. -/
def directionNotices (out : List Effect) : List Effect :=
  out.filter (fun e =>
    decide (e = directionNotice Direction.Clockwise) ||
    decide (e = directionNotice Direction.CounterClockwise))

/-- The shape of the states of an undisturbed scan: the position is a multiple
of `STEP_SIZE`; while travelling clockwise it lies in `[0, 1020]`, while
travelling counter-clockwise in `[10, 1030]`. -/
def Sweeping (g : Globals) : Prop :=
  g.currentSteps % STEP_SIZE = 0 ∧
  ((g.isClockwise = true ∧ 0 ≤ g.currentSteps ∧ g.currentSteps ≤ 1020) ∨
   (g.isClockwise = false ∧ 10 ≤ g.currentSteps ∧ g.currentSteps ≤ 1030))

instance (g : Globals) : Decidable (Sweeping g) := by
  unfold Sweeping; infer_instance

/-! ## The text on the serial line -/

/-- Modelled from the spec: the text the serial port receives from a list of
calls.  The `Print` class behind `Serial.print` and `Serial.println` is Arduino
core code, absent from the sources; the spec describes the output as
line-oriented text.  `print` appends the text of its argument, `println`
appends it followed by a line end (carriage return, line feed).  `fmt x` is the
text `print` writes for a floating-point value `x` and `fmtln x` the text
`println` writes for it (the spec gives the angle one decimal place and leaves
the distance unformatted, so the two need not agree). -/
def serialText (fmt fmtln : ℚ → String) : List Effect → String
  | [] => ""
  | Effect.printStr s :: rest => s ++ serialText fmt fmtln rest
  | Effect.printlnStr s :: rest => s ++ "\r\n" ++ serialText fmt fmtln rest
  | Effect.printInt n :: rest => toString n ++ serialText fmt fmtln rest
  | Effect.printFloat x :: rest => fmt x ++ serialText fmt fmtln rest
  | Effect.printlnFloat x :: rest => fmtln x ++ "\r\n" ++ serialText fmt fmtln rest
  | Effect.step _ :: rest => serialText fmt fmtln rest
  | Effect.delay _ :: rest => serialText fmt fmtln rest

/-- The decimal digit character of `n % 10`. -/
def digitChar (n : Nat) : Char := Char.ofNat (48 + n % 10)

/-- The decimal digits of `n`, most significant first, computed with at most
`fuel` divisions by ten. -/
def natDigits : Nat → Nat → List Char
  | 0, n => [digitChar n]
  | fuel + 1, n => if n < 10 then [digitChar n] else natDigits fuel (n / 10) ++ [digitChar n]

/-- The decimal text of a natural number. -/
def natText (n : Nat) : List Char := natDigits n n

/-- The `places` lowest decimal digits of `m`, most significant first, with
leading zeros. -/
def fracDigits : Nat → Nat → List Char
  | 0, _ => []
  | k + 1, m => digitChar (m / 10 ^ k) :: fracDigits k m

/-- The characters of `decimalText`. -/
def decimalChars (places : Nat) (x : ℚ) : List Char :=
  let scaled : Nat := (2 * 10 ^ places * x.num.natAbs + x.den) / (2 * x.den)
  (if x < 0 then ['-'] else []) ++ natText (scaled / 10 ^ places) ++
    (if places = 0 then [] else '.' :: fracDigits places (scaled % 10 ^ places))

/-- Modelled from the spec: the text `Serial.print` writes for a floating-point
value, which the Arduino core (absent from the sources) produces.  The spec
says both telemetry fields are decimal representations of floating-point
values: here the fixed-point decimal text of `x` with `places` digits after the
point, rounded half away from zero: a minus sign when `x < 0`, the digits of the
integer part, and, when `places > 0`, a point and `places` fraction digits. -/
def decimalText (places : Nat) (x : ℚ) : String :=
  String.mk (decimalChars places x)

/-- A non-empty run of decimal digits. -/
def digitsOnly (cs : List Char) : Bool :=
  !cs.isEmpty && cs.all Char.isDigit

/-- An unsigned numeric field: digits, optionally followed by a point and more
digits. -/
def unsignedField (cs : List Char) : Bool :=
  digitsOnly (cs.takeWhile (fun c => c != '.')) &&
    ((cs.dropWhile (fun c => c != '.')).isEmpty ||
      digitsOnly (cs.dropWhile (fun c => c != '.')).tail)

/-- The text after an optional leading minus sign. -/
def dropSign : List Char → List Char
  | [] => []
  | c :: rest => if c = '-' then rest else c :: rest

/-- A numeric field: an optional minus sign, one or more digits, and optionally
a point followed by one or more digits. -/
def numericField (s : String) : Bool :=
  unsignedField (dropSign s.toList)

/-! ## Basic facts about one run of `loop()` -/

theorem threshold_eq : (17.0 : ℚ) = 17 := by norm_num

theorem loop_paused (d : ℚ) (g : Globals) (h : d < 17) :
    loop d g =
      (g, [ Effect.printFloat (currentAngle g), Effect.printStr ",", Effect.printlnFloat d,
            Effect.printlnStr "Object detected < 17cm. Paused.", Effect.delay 200 ]) := by
  have h' : d < 17.0 := by rw [threshold_eq]; exact h
  simp [loop, h']

theorem motorCommands_append (xs ys : List Effect) :
    motorCommands (xs ++ ys) = motorCommands xs ++ motorCommands ys := by
  induction xs with
  | nil => rfl
  | cons x xs ih => cases x <;> simp [motorCommands, ih]

theorem updateDirection_commands (g : Globals) : motorCommands (updateDirection g).2 = [] := by
  unfold updateDirection
  split_ifs <;> simp [motorCommands]

theorem updateDirection_steps (g : Globals) :
    (updateDirection g).1.currentSteps = g.currentSteps := by
  unfold updateDirection
  split_ifs <;> rfl

theorem moveStepper_commands (n : Int) (g : Globals) :
    motorCommands (moveStepper n g).2 = [n] := by
  simp [moveStepper, motorCommands]

theorem moveStepper_state (n : Int) (g : Globals) :
    (moveStepper n g).1 = ⟨g.currentSteps + n, g.isClockwise⟩ := rfl

theorem loop_moving_state (d : ℚ) (g : Globals) (h : 17 ≤ d) :
    (loop d g).1 =
      (updateDirection ⟨g.currentSteps + (if g.isClockwise then STEP_SIZE else -STEP_SIZE),
        g.isClockwise⟩).1 := by
  have h' : ¬ d < 17.0 := by rw [threshold_eq]; exact not_lt.mpr h
  cases hb : g.isClockwise <;> simp [loop, h', hb, moveStepper_state]

theorem loop_moving_commands (d : ℚ) (g : Globals) (h : 17 ≤ d) :
    motorCommands (loop d g).2 = [if g.isClockwise then STEP_SIZE else -STEP_SIZE] := by
  have h' : ¬ d < 17.0 := by rw [threshold_eq]; exact not_lt.mpr h
  cases hb : g.isClockwise <;>
    simp [loop, h', hb, motorCommands_append, moveStepper_commands, updateDirection_commands,
      motorCommands]

theorem loop_moving_steps (d : ℚ) (g : Globals) (h : 17 ≤ d) :
    (loop d g).1.currentSteps =
      g.currentSteps + (if g.isClockwise then STEP_SIZE else -STEP_SIZE) := by
  rw [loop_moving_state d g h, updateDirection_steps]

/-! ## Runs of several iterations -/

theorem runLoop_nil (g : Globals) : runLoop [] g = g := rfl

theorem runLoop_cons (d : ℚ) (ds : List ℚ) (g : Globals) :
    runLoop (d :: ds) g = runLoop ds (loop d g).1 := rfl

theorem sweeping_start : Sweeping start := by decide

theorem sweeping_loop (d : ℚ) (g : Globals) (hg : Sweeping g) : Sweeping (loop d g).1 := by
  rcases lt_or_le d 17 with hd | hd
  · rw [loop_paused d g hd]; exact hg
  · rw [loop_moving_state d g hd]
    obtain ⟨p, b⟩ := g
    unfold Sweeping at hg ⊢
    unfold updateDirection
    simp only [MAX_STEPS, STEP_SIZE, ge_iff_le] at hg ⊢
    rcases hg with ⟨hm, ⟨hb, h0, h1⟩ | ⟨hb, h0, h1⟩⟩ <;> subst hb <;>
      simp only [if_true, if_false, Bool.false_eq_true] <;>
      split_ifs <;> simp <;> omega

theorem sweeping_runLoop (ds : List ℚ) (g : Globals) (hg : Sweeping g) :
    Sweeping (runLoop ds g) := by
  induction ds generalizing g with
  | nil => exact hg
  | cons d ds ih => exact ih _ (sweeping_loop d g hg)

theorem sweeping_reachable (ds : List ℚ) : Sweeping (runLoop ds start) :=
  sweeping_runLoop ds start sweeping_start

theorem loop_clockwise_below (d : ℚ) (p : Int) (hd : 17 ≤ d) (h0 : 0 ≤ p)
    (h1 : p + 10 < 1024) : (loop d ⟨p, true⟩).1 = ⟨p + 10, true⟩ := by
  rw [loop_moving_state d _ hd]
  unfold updateDirection
  simp only [MAX_STEPS, STEP_SIZE, ge_iff_le, if_true]
  split_ifs <;> first | rfl | omega

theorem loop_clockwise_top (d : ℚ) (p : Int) (hd : 17 ≤ d) (h1 : 1024 ≤ p + 10) :
    (loop d ⟨p, true⟩).1 = ⟨p + 10, false⟩ := by
  rw [loop_moving_state d _ hd]
  unfold updateDirection
  simp only [MAX_STEPS, STEP_SIZE, ge_iff_le, if_true]
  rw [if_pos h1]

theorem runLoop_clockwise_below (ds : List ℚ) (p : Int) (hd : ∀ d ∈ ds, (17 : ℚ) ≤ d)
    (h0 : 0 ≤ p) (h1 : p + 10 * (ds.length : Int) < 1024) :
    runLoop ds ⟨p, true⟩ = ⟨p + 10 * (ds.length : Int), true⟩ := by
  induction ds generalizing p with
  | nil => simp [runLoop_nil]
  | cons d ds ih =>
    have hlen : ((d :: ds).length : Int) = (ds.length : Int) + 1 := by simp
    rw [hlen] at h1 ⊢
    have hd1 : (17 : ℚ) ≤ d := hd d (List.mem_cons_self d ds)
    have hds : ∀ x ∈ ds, (17 : ℚ) ≤ x := fun x hx => hd x (List.mem_cons_of_mem d hx)
    have hn : (0 : Int) ≤ (ds.length : Int) := Int.natCast_nonneg _
    rw [runLoop_cons, loop_clockwise_below d p hd1 h0 (by omega),
      ih (p + 10) hds (by omega) (by omega)]
    congr 1
    ring

theorem runLoop_append_single (ds : List ℚ) (d : ℚ) (g : Globals) :
    runLoop (ds ++ [d]) g = (loop d (runLoop ds g)).1 := by
  simp [runLoop, List.foldl_append]

theorem loop_paused_notices (d : ℚ) (g : Globals) (h : d < 17) :
    directionNotices (loop d g).2 = [] := by
  rw [loop_paused d g h]
  simp [directionNotices, directionNotice]

theorem loop_moving_notices (d : ℚ) (g : Globals) (h : 17 ≤ d) :
    directionNotices (loop d g).2 =
      (updateDirection ⟨g.currentSteps + (if g.isClockwise then STEP_SIZE else -STEP_SIZE),
        g.isClockwise⟩).2 := by
  have h' : ¬ d < 17.0 := by rw [threshold_eq]; exact not_lt.mpr h
  cases hb : g.isClockwise <;>
    simp only [loop, h', hb, if_false, if_true, Bool.false_eq_true, moveStepper,
      updateDirection] <;>
    split_ifs <;> simp [directionNotices, directionNotice]

theorem loop_moving_output (d : ℚ) (g : Globals) (h : 17 ≤ d) :
    (loop d g).2 =
      [ Effect.printFloat (currentAngle g), Effect.printStr ",", Effect.printlnFloat d ] ++
        ((moveStepper (if g.isClockwise then STEP_SIZE else -STEP_SIZE) g).2 ++
          ((updateDirection
              (moveStepper (if g.isClockwise then STEP_SIZE else -STEP_SIZE) g).1).2 ++
            [Effect.delay 50])) := by
  have h' : ¬ d < 17.0 := by rw [threshold_eq]; exact not_lt.mpr h
  cases hb : g.isClockwise <;> simp [loop, h', hb]

theorem moveStepper_other (n : Int) (g : Globals) (e : Effect)
    (he : e ∈ (moveStepper n g).2) :
    e ≠ Effect.printStr "," ∧ ∀ x, e ≠ Effect.printlnFloat x := by
  simp only [moveStepper, List.mem_cons, List.mem_singleton, List.not_mem_nil, or_false] at he
  rcases he with he | he | he | he | he | he | he | he | he <;> rw [he] <;>
    first | (simp; done) | (split_ifs <;> simp)

theorem updateDirection_other (g : Globals) (e : Effect)
    (he : e ∈ (updateDirection g).2) :
    e ≠ Effect.printStr "," ∧ ∀ x, e ≠ Effect.printlnFloat x := by
  unfold updateDirection at he
  split_ifs at he <;> simp at he <;> rw [he] <;> simp

/-! ## The unobstructed scan -/

theorem runLoop_append (xs ys : List ℚ) (g : Globals) :
    runLoop (xs ++ ys) g = runLoop ys (runLoop xs g) := by
  simp [runLoop, List.foldl_append]

theorem loop_counter_above (d : ℚ) (p : Int) (hd : 17 ≤ d) (h0 : 0 < p - 10)
    (h1 : p - 10 < 1024) : (loop d ⟨p, false⟩).1 = ⟨p - 10, false⟩ := by
  rw [loop_moving_state d _ hd]
  unfold updateDirection
  simp only [MAX_STEPS, STEP_SIZE, ge_iff_le, if_false, Bool.false_eq_true]
  split_ifs <;> first | omega | rfl

theorem loop_counter_bottom (d : ℚ) (p : Int) (hd : 17 ≤ d) (h0 : p - 10 ≤ 0) :
    (loop d ⟨p, false⟩).1 = ⟨p - 10, true⟩ := by
  rw [loop_moving_state d _ hd]
  unfold updateDirection
  simp only [MAX_STEPS, STEP_SIZE, ge_iff_le, if_false, Bool.false_eq_true]
  split_ifs <;> first | omega | rfl

theorem runLoop_counter_above (ds : List ℚ) (p : Int) (hd : ∀ d ∈ ds, (17 : ℚ) ≤ d)
    (h1 : p ≤ 1033) (h0 : 0 < p - 10 * (ds.length : Int)) :
    runLoop ds ⟨p, false⟩ = ⟨p - 10 * (ds.length : Int), false⟩ := by
  induction ds generalizing p with
  | nil => simp [runLoop_nil]
  | cons d ds ih =>
    have hlen : ((d :: ds).length : Int) = (ds.length : Int) + 1 := by simp
    rw [hlen] at h0 ⊢
    have hd1 : (17 : ℚ) ≤ d := hd d (List.mem_cons_self d ds)
    have hds : ∀ x ∈ ds, (17 : ℚ) ≤ x := fun x hx => hd x (List.mem_cons_of_mem d hx)
    have hn : (0 : Int) ≤ (ds.length : Int) := Int.natCast_nonneg _
    rw [runLoop_cons, loop_counter_above d p hd1 (by omega) (by omega),
      ih (p - 10) hds (by omega) (by omega)]
    congr 1
    ring

theorem runLoop_unobstructed_up (ds : List ℚ) (hd : ∀ d ∈ ds, (17 : ℚ) ≤ d)
    (hlen : ds.length ≤ 102) : runLoop ds start = ⟨10 * (ds.length : Int), true⟩ := by
  have hl : (ds.length : Int) ≤ 102 := by exact_mod_cast hlen
  have := runLoop_clockwise_below ds 0 hd (le_refl 0) (by omega)
  simpa [start] using this

theorem runLoop_unobstructed_top (ds : List ℚ) (hd : ∀ d ∈ ds, (17 : ℚ) ≤ d)
    (hlen : ds.length = 103) : runLoop ds start = ⟨1030, false⟩ := by
  have hne : ds ≠ [] := by
    intro he; rw [he] at hlen; simp at hlen
  have hsplit : ds.dropLast ++ [ds.getLast hne] = ds := List.dropLast_append_getLast hne
  have hlen2 : ds.dropLast.length = 102 := by simp [hlen]
  have hdl : ∀ d ∈ ds.dropLast, (17 : ℚ) ≤ d := fun d h => hd d (List.mem_of_mem_dropLast h)
  have hlast : (17 : ℚ) ≤ ds.getLast hne := hd _ (List.getLast_mem hne)
  rw [← hsplit, runLoop_append_single, runLoop_unobstructed_up ds.dropLast hdl (by omega),
    hlen2, loop_clockwise_top _ _ hlast (by norm_num)]
  rfl

theorem runLoop_unobstructed_down (ds : List ℚ) (hd : ∀ d ∈ ds, (17 : ℚ) ≤ d)
    (h1 : 103 ≤ ds.length) (h2 : ds.length ≤ 205) :
    runLoop ds start = ⟨2060 - 10 * (ds.length : Int), false⟩ := by
  have hsplit : ds.take 103 ++ ds.drop 103 = ds := List.take_append_drop 103 ds
  have htake : (ds.take 103).length = 103 := by simp [List.length_take]; omega
  have hdrop : (ds.drop 103).length = ds.length - 103 := by simp
  have hdt : ∀ d ∈ ds.take 103, (17 : ℚ) ≤ d := fun d h => hd d (List.mem_of_mem_take h)
  have hdd : ∀ d ∈ ds.drop 103, (17 : ℚ) ≤ d := fun d h => hd d (List.mem_of_mem_drop h)
  have hcast : ((ds.drop 103).length : Int) = (ds.length : Int) - 103 := by
    rw [hdrop]; omega
  rw [← hsplit, runLoop_append, runLoop_unobstructed_top _ hdt htake,
    runLoop_counter_above _ 1030 hdd (by norm_num) (by rw [hcast]; omega), hcast, hsplit]
  congr 1
  ring

theorem runLoop_unobstructed_period (ds : List ℚ) (hd : ∀ d ∈ ds, (17 : ℚ) ≤ d)
    (hlen : ds.length = 206) : runLoop ds start = ⟨0, true⟩ := by
  have hne : ds ≠ [] := by
    intro he; rw [he] at hlen; simp at hlen
  have hsplit : ds.dropLast ++ [ds.getLast hne] = ds := List.dropLast_append_getLast hne
  have hlen2 : ds.dropLast.length = 205 := by simp [hlen]
  have hdl : ∀ d ∈ ds.dropLast, (17 : ℚ) ≤ d := fun d h => hd d (List.mem_of_mem_dropLast h)
  have hlast : (17 : ℚ) ≤ ds.getLast hne := hd _ (List.getLast_mem hne)
  rw [← hsplit, runLoop_append_single,
    runLoop_unobstructed_down ds.dropLast hdl (by omega) (by omega), hlen2,
    loop_counter_bottom _ _ hlast (by norm_num)]
  rfl

theorem replicate_unobstructed (n : Nat) : ∀ d ∈ List.replicate n (20.0 : ℚ), (17 : ℚ) ≤ d := by
  intro d hd
  rw [List.eq_of_mem_replicate hd]
  norm_num

/-! ## Serial text -/

theorem currentAngle_eq_zero (g : Globals) : currentAngle g = 0 := by
  unfold currentAngle; norm_num

theorem loop_output_take (d : ℚ) (g : Globals) :
    (loop d g).2.take 3 =
      [Effect.printFloat (currentAngle g), Effect.printStr ",", Effect.printlnFloat d] := by
  rcases lt_or_le d 17 with hd | hd
  · rw [loop_paused d g hd]; rfl
  · rw [loop_moving_output d g hd]; rfl

theorem serialText_append (fmt fmtln : ℚ → String) (xs ys : List Effect) :
    serialText fmt fmtln (xs ++ ys) = serialText fmt fmtln xs ++ serialText fmt fmtln ys := by
  induction xs with
  | nil => simp [serialText]
  | cons x xs ih => cases x <;> simp [serialText, ih, String.append_assoc]

theorem digitChar_isDigit (n : Nat) : (digitChar n).isDigit = true := by
  have h : n % 10 < 10 := Nat.mod_lt _ (by decide)
  unfold digitChar
  generalize n % 10 = k at h
  interval_cases k <;> decide

theorem natDigits_digits (fuel n : Nat) : ∀ c ∈ natDigits fuel n, c.isDigit = true := by
  induction fuel generalizing n with
  | zero =>
    intro c hc
    simp only [natDigits, List.mem_singleton] at hc
    rw [hc]; exact digitChar_isDigit n
  | succ k ih =>
    intro c hc
    unfold natDigits at hc
    split_ifs at hc
    · rw [List.mem_singleton.mp hc]; exact digitChar_isDigit n
    · rcases List.mem_append.mp hc with h | h
      · exact ih _ c h
      · rw [List.mem_singleton.mp h]; exact digitChar_isDigit n

theorem natDigits_ne_nil (fuel n : Nat) : natDigits fuel n ≠ [] := by
  cases fuel with
  | zero => simp [natDigits]
  | succ k =>
    unfold natDigits
    split_ifs <;> simp

theorem fracDigits_digits (k m : Nat) : ∀ c ∈ fracDigits k m, c.isDigit = true := by
  induction k with
  | zero => intro c hc; simp [fracDigits] at hc
  | succ k ih =>
    intro c hc
    simp only [fracDigits, List.mem_cons] at hc
    rcases hc with h | h
    · rw [h]; exact digitChar_isDigit _
    · exact ih c h

theorem fracDigits_ne_nil (k m : Nat) (hk : k ≠ 0) : fracDigits k m ≠ [] := by
  cases k with
  | zero => exact absurd rfl hk
  | succ k => simp [fracDigits]

theorem isDigit_ne_point (c : Char) (h : c.isDigit = true) : (c != '.') = true := by
  rw [bne_iff_ne]
  rintro rfl
  exact absurd h (by decide)

theorem isDigit_ne_minus (c : Char) (h : c.isDigit = true) : c ≠ '-' := by
  rintro rfl
  exact absurd h (by decide)

theorem digitsOnly_of (cs : List Char) (hne : cs ≠ []) (hd : ∀ c ∈ cs, c.isDigit = true) :
    digitsOnly cs = true := by
  unfold digitsOnly
  rw [Bool.and_eq_true, List.all_eq_true]
  refine ⟨?_, hd⟩
  cases cs with
  | nil => exact absurd rfl hne
  | cons c rest => rfl

theorem unsignedField_whole (ip : List Char) (hne : ip ≠ [])
    (hd : ∀ c ∈ ip, c.isDigit = true) : unsignedField ip = true := by
  have hp : ∀ c ∈ ip, (c != '.') = true := fun c hc => isDigit_ne_point c (hd c hc)
  have ht : ip.takeWhile (fun c => c != '.') = ip := by
    have := @List.takeWhile_append_of_pos Char (fun c => c != '.') ip [] hp
    simpa using this
  have hdr : ip.dropWhile (fun c => c != '.') = [] := by
    have := @List.dropWhile_append_of_pos Char (fun c => c != '.') ip [] hp
    simpa using this
  unfold unsignedField
  rw [ht, hdr, digitsOnly_of ip hne hd]
  rfl

theorem unsignedField_point (ip fd : List Char) (hne : ip ≠ [])
    (hd : ∀ c ∈ ip, c.isDigit = true) (fne : fd ≠ []) (fdd : ∀ c ∈ fd, c.isDigit = true) :
    unsignedField (ip ++ '.' :: fd) = true := by
  have hp : ∀ c ∈ ip, (c != '.') = true := fun c hc => isDigit_ne_point c (hd c hc)
  have ht : (ip ++ '.' :: fd).takeWhile (fun c => c != '.') = ip := by
    rw [List.takeWhile_append_of_pos hp]
    simp
  have hdr : (ip ++ '.' :: fd).dropWhile (fun c => c != '.') = '.' :: fd := by
    rw [List.dropWhile_append_of_pos hp]
    simp
  unfold unsignedField
  rw [ht, hdr, digitsOnly_of ip hne hd]
  simp [digitsOnly_of fd fne fdd]

theorem decimalText_numericField (places : Nat) (x : ℚ) :
    numericField (decimalText places x) = true := by
  unfold numericField decimalText
  show unsignedField (dropSign (decimalChars places x)) = true
  unfold decimalChars
  simp only []
  generalize (2 * 10 ^ places * x.num.natAbs + x.den) / (2 * x.den) = scaled
  have ine : natText (scaled / 10 ^ places) ≠ [] := natDigits_ne_nil _ _
  have idd : ∀ c ∈ natText (scaled / 10 ^ places), c.isDigit = true := natDigits_digits _ _
  generalize natText (scaled / 10 ^ places) = ip at ine idd
  have hbody : ∀ tl : List Char, dropSign ((if x < 0 then ['-'] else []) ++ ip ++ tl) =
      ip ++ tl := by
    intro tl
    cases ip with
    | nil => exact absurd rfl ine
    | cons c rest =>
      have hc : c ≠ '-' := isDigit_ne_minus c (idd c (List.mem_cons_self c rest))
      split_ifs <;> simp [dropSign, hc]
  rw [hbody]
  split_ifs with hp
  · rw [List.append_nil]
    exact unsignedField_whole ip ine idd
  · exact unsignedField_point ip _ ine idd (fracDigits_ne_nil _ _ hp) (fracDigits_digits _ _)

theorem decimalText_chars (places : Nat) (x : ℚ) :
    ∀ c ∈ (decimalText places x).toList, c.isDigit = true ∨ c = '.' ∨ c = '-' := by
  intro c hc
  have hc2 : c ∈ decimalChars places x := hc
  unfold decimalChars at hc2
  simp only [List.mem_append] at hc2
  rcases hc2 with (h | h) | h
  · split_ifs at h
    · right; right; simpa using h
    · simp at h
  · left; exact natDigits_digits _ _ c h
  · split_ifs at h
    · simp at h
    · rcases List.mem_cons.mp h with h1 | h1
      · right; left; exact h1
      · left; exact fracDigits_digits _ _ c h1

theorem decimalText_count (places : Nat) (x : ℚ) (c : Char)
    (hc : c.isDigit = false) (hpoint : c ≠ '.') (hminus : c ≠ '-') :
    (decimalText places x).toList.count c = 0 := by
  rw [List.count_eq_zero]
  intro hmem
  rcases decimalText_chars places x c hmem with h | h | h
  · rw [hc] at h; exact Bool.false_ne_true h
  · exact hpoint h
  · exact hminus h

/-! ## Claims -/

/-- C1 (gating): for every state and every distance sample below 17.0, one run
of `loop()` leaves `currentSteps` and `isClockwise` unchanged, makes no
`stepper.step` call, and prints the pause notice. -/
theorem C1_gating (g : Globals) (d : ℚ) (h : d < 17.0) :
    (loop d g).1 = g ∧ motorCommands (loop d g).2 = [] ∧ pauseNotice ∈ (loop d g).2 := by
  rw [threshold_eq] at h
  rw [loop_paused d g h]
  simp [motorCommands, pauseNotice]

/-- C1 witness: position 500, clockwise, distance 5.0. -/
theorem C1_gating_witness :
    (5.0 : ℚ) < 17.0 ∧
    (loop 5.0 ⟨500, true⟩).1 = ⟨500, true⟩ ∧
    motorCommands (loop 5.0 ⟨500, true⟩).2 = [] ∧
    pauseNotice ∈ (loop 5.0 ⟨500, true⟩).2 :=
  ⟨by norm_num, C1_gating ⟨500, true⟩ 5.0 (by norm_num)⟩

/-- C2 (non-gating move): for every state and every distance sample of at
least 17.0, one run of `loop()` makes exactly one `stepper.step` call; its
argument is `+STEP_SIZE = +10` when the direction is clockwise and
`-STEP_SIZE = -10` when it is counter-clockwise, and the new position is the
old position plus that argument. -/
theorem C2_move (g : Globals) (d : ℚ) (h : 17.0 ≤ d) :
    STEP_SIZE = 10 ∧
    (g.direction = Direction.Clockwise →
      motorCommands (loop d g).2 = [STEP_SIZE] ∧
      (loop d g).1.currentSteps = g.currentSteps + STEP_SIZE) ∧
    (g.direction = Direction.CounterClockwise →
      motorCommands (loop d g).2 = [-STEP_SIZE] ∧
      (loop d g).1.currentSteps = g.currentSteps + -STEP_SIZE) := by
  rw [threshold_eq] at h
  rw [loop_moving_commands d g h, loop_moving_steps d g h]
  cases hb : g.isClockwise <;> simp [Globals.direction, hb, STEP_SIZE]

/-- C2 witness: position 500 with distance 20.0, in each direction. -/
theorem C2_move_witness :
    (17.0 : ℚ) ≤ 20.0 ∧
    (motorCommands (loop 20.0 ⟨500, true⟩).2 = [10] ∧
      (loop 20.0 ⟨500, true⟩).1.currentSteps = 510) ∧
    (motorCommands (loop 20.0 ⟨500, false⟩).2 = [-10] ∧
      (loop 20.0 ⟨500, false⟩).1.currentSteps = 490) :=
  ⟨by norm_num,
   (C2_move ⟨500, true⟩ 20.0 (by norm_num)).2.1 rfl,
   (C2_move ⟨500, false⟩ 20.0 (by norm_num)).2.2 rfl⟩

/-- C3 (reverse-check): for every state and every distance sample of at least
17.0, the direction after one run of `loop()` is determined by the position
reached after the move: counter-clockwise if that position is at least
`MAX_STEPS = 1024`, otherwise clockwise if it is at most 0, otherwise the
direction before the run. -/
theorem C3_reverse_check (g : Globals) (d : ℚ) (h : 17.0 ≤ d) :
    MAX_STEPS = 1024 ∧
    (loop d g).1.direction =
      if (loop d g).1.currentSteps ≥ MAX_STEPS then Direction.CounterClockwise
      else if (loop d g).1.currentSteps ≤ 0 then Direction.Clockwise
      else g.direction := by
  rw [threshold_eq] at h
  refine ⟨rfl, ?_⟩
  rw [loop_moving_steps d g h, loop_moving_state d g h]
  unfold updateDirection
  simp only [ge_iff_le]
  split_ifs <;> simp_all [Globals.direction]

/-- C3 witness: position 5, counter-clockwise, distance 20.0 gives position -5
and direction clockwise. -/
theorem C3_reverse_check_witness :
    (17.0 : ℚ) ≤ 20.0 ∧
    (loop 20.0 ⟨5, false⟩).1.currentSteps = -5 ∧
    (loop 20.0 ⟨5, false⟩).1.direction = Direction.Clockwise := by
  have hd : (17 : ℚ) ≤ 20.0 := by norm_num
  have hp : (loop 20.0 ⟨5, false⟩).1.currentSteps = -5 := by
    rw [loop_moving_steps _ _ hd]; decide
  refine ⟨by norm_num, hp, ?_⟩
  have key := (C3_reverse_check ⟨5, false⟩ 20.0 (by norm_num)).2
  rw [hp] at key
  rw [key]
  decide

/-- C4, as stated, fails: a paused run of `loop()` leaves the direction as it
was.  At position 1024 (`≥ MAX_STEPS`) with direction clockwise and distance 5.0
the direction after the run is still clockwise; at position 0 with direction
counter-clockwise and distance 5.0 it is still counter-clockwise. -/
theorem C4_reversal_counterexample :
    ((⟨1024, true⟩ : Globals).currentSteps ≥ MAX_STEPS ∧
      (loop 5.0 ⟨1024, true⟩).1.direction ≠ Direction.CounterClockwise) ∧
    ((⟨0, false⟩ : Globals).currentSteps ≤ 0 ∧
      (loop 5.0 ⟨0, false⟩).1.direction ≠ Direction.Clockwise) := by
  have hd : (5.0 : ℚ) < 17 := by norm_num
  rw [loop_paused _ _ hd, loop_paused _ _ hd]
  decide

/-- C4 (reversal, amended): for every state whose position leaves room for one
move inside the range of `int` (`INT_MIN + STEP_SIZE ≤ position ≤
INT_MAX - STEP_SIZE`) and every distance sample of at least 17.0, the position
after one run of `loop()` is again inside the range of `int`, and if the
position before the run is at least `MAX_STEPS` the direction after it is
counter-clockwise, whatever it was before, and if the position before the run is
at most 0 the direction after it is clockwise.  On the states reached from
start-up (position 0, clockwise) the same holds for every distance sample,
paused runs included. -/
theorem C4_reversal :
    (∀ (g : Globals) (d : ℚ),
      INT_MIN + STEP_SIZE ≤ g.currentSteps → g.currentSteps ≤ INT_MAX - STEP_SIZE →
      17.0 ≤ d →
        (INT_MIN ≤ (loop d g).1.currentSteps ∧ (loop d g).1.currentSteps ≤ INT_MAX) ∧
        (g.currentSteps ≥ MAX_STEPS →
          (loop d g).1.direction = Direction.CounterClockwise) ∧
        (g.currentSteps ≤ 0 → (loop d g).1.direction = Direction.Clockwise)) ∧
    (∀ (ds : List ℚ) (d : ℚ),
        ((runLoop ds start).currentSteps ≥ MAX_STEPS →
          (loop d (runLoop ds start)).1.direction = Direction.CounterClockwise) ∧
        ((runLoop ds start).currentSteps ≤ 0 →
          (loop d (runLoop ds start)).1.direction = Direction.Clockwise)) := by
  constructor
  · intro g d hlo hhi h
    rw [threshold_eq] at h
    refine ⟨?_, ?_⟩
    · rw [loop_moving_steps d g h]
      simp only [INT_MIN, INT_MAX, STEP_SIZE] at hlo hhi ⊢
      cases hb : g.isClockwise <;> simp only [if_true, if_false, Bool.false_eq_true] <;>
        omega
    · rw [loop_moving_state d g h]
      unfold updateDirection
      simp only [MAX_STEPS, STEP_SIZE, ge_iff_le]
      constructor <;> intro hp <;> cases hb : g.isClockwise <;>
        simp only [hb, if_true, if_false, Bool.false_eq_true] <;>
        split_ifs <;> first | rfl | omega
  · intro ds d
    have hs := sweeping_reachable ds
    generalize runLoop ds start = g at hs ⊢
    rcases lt_or_le d 17 with hd | hd
    · rw [loop_paused d g hd]
      unfold Sweeping at hs
      unfold Globals.direction
      simp only [MAX_STEPS, ge_iff_le]
      rcases hs with ⟨_, ⟨hb, h0, h1⟩ | ⟨hb, h0, h1⟩⟩ <;> rw [hb] <;> constructor <;>
        intro hp <;> first | rfl | omega
    · rw [loop_moving_state d g hd]
      unfold Sweeping at hs
      unfold updateDirection
      simp only [MAX_STEPS, STEP_SIZE, ge_iff_le]
      rcases hs with ⟨_, ⟨hb, h0, h1⟩ | ⟨hb, h0, h1⟩⟩ <;> rw [hb] <;>
        simp only [if_true, if_false, Bool.false_eq_true] <;>
        constructor <;> intro hp <;> split_ifs <;> first | rfl | omega

/-- C4 witness: distance 20.0 at position 1024 going clockwise and at position
0 going counter-clockwise, both inside the range of `int`; and distance 5.0 at
start-up. -/
theorem C4_reversal_witness :
    (INT_MIN + STEP_SIZE ≤ (1024 : Int) ∧ (1024 : Int) ≤ INT_MAX - STEP_SIZE) ∧
    (INT_MIN + STEP_SIZE ≤ (0 : Int) ∧ (0 : Int) ≤ INT_MAX - STEP_SIZE) ∧
    (17.0 : ℚ) ≤ 20.0 ∧
    ((⟨1024, true⟩ : Globals).currentSteps ≥ MAX_STEPS ∧
      (loop 20.0 ⟨1024, true⟩).1.direction = Direction.CounterClockwise) ∧
    ((⟨0, false⟩ : Globals).currentSteps ≤ 0 ∧
      (loop 20.0 ⟨0, false⟩).1.direction = Direction.Clockwise) ∧
    (loop 5.0 (runLoop [] start)).1.direction = Direction.Clockwise :=
  ⟨⟨by decide, by decide⟩, ⟨by decide, by decide⟩, by norm_num,
   ⟨by decide,
    (C4_reversal.1 ⟨1024, true⟩ 20.0 (by decide) (by decide) (by norm_num)).2.1 (by decide)⟩,
   ⟨by decide,
    (C4_reversal.1 ⟨0, false⟩ 20.0 (by decide) (by decide) (by norm_num)).2.2 (by decide)⟩,
   (C4_reversal.2 [] 5.0).2 (by decide)⟩

/-- C5 (forward progress): for every position `p` with
`1 ≤ p ≤ MAX_STEPS - 1`, direction clockwise and a distance sample of at least
17.0, one run of `loop()` yields position `p + STEP_SIZE`; it yields direction
clockwise whenever `p + STEP_SIZE < MAX_STEPS`, and the direction differs from
clockwise only if `p + STEP_SIZE ≥ MAX_STEPS`. -/
theorem C5_forward_progress (p : Int) (d : ℚ) (h1 : 1 ≤ p) (h2 : p ≤ MAX_STEPS - 1)
    (hd : 17.0 ≤ d) :
    (loop d ⟨p, true⟩).1.currentSteps = p + STEP_SIZE ∧
    (p + STEP_SIZE < MAX_STEPS → (loop d ⟨p, true⟩).1.direction = Direction.Clockwise) ∧
    ((loop d ⟨p, true⟩).1.direction ≠ Direction.Clockwise → p + STEP_SIZE ≥ MAX_STEPS) := by
  rw [threshold_eq] at hd
  have _ := h2
  have hs : (loop d ⟨p, true⟩).1.currentSteps = p + STEP_SIZE := by
    rw [loop_moving_steps d _ hd]; rfl
  have hc : p + STEP_SIZE < MAX_STEPS →
      (loop d ⟨p, true⟩).1.direction = Direction.Clockwise := by
    intro hlt
    rw [loop_moving_state d _ hd]
    unfold updateDirection
    simp only [MAX_STEPS, STEP_SIZE, ge_iff_le, if_true] at hlt ⊢
    split_ifs <;> first | rfl | omega
  refine ⟨hs, hc, ?_⟩
  intro hne
  by_contra hlt
  exact hne (hc (not_le.mp hlt))

/-- C5 witness: position 500 and distance 20.0. -/
theorem C5_forward_progress_witness :
    (1 : Int) ≤ 500 ∧ (500 : Int) ≤ MAX_STEPS - 1 ∧ (17.0 : ℚ) ≤ 20.0 ∧
    (loop 20.0 ⟨500, true⟩).1.currentSteps = 500 + STEP_SIZE ∧
    (500 + STEP_SIZE < MAX_STEPS → (loop 20.0 ⟨500, true⟩).1.direction = Direction.Clockwise) ∧
    ((loop 20.0 ⟨500, true⟩).1.direction ≠ Direction.Clockwise → 500 + STEP_SIZE ≥ MAX_STEPS) :=
  ⟨by decide, by decide, by norm_num,
   C5_forward_progress 500 20.0 (by decide) (by decide) (by norm_num)⟩

/-- C6 (first sweep from start-up): starting from position 0, clockwise, and
feeding only distance samples of at least 17.0, after `k ≤ 102` runs of
`loop()` the position is `10 * k` and the direction is clockwise; after 103
runs the position is 1030 and the direction is counter-clockwise. -/
theorem C6_first_sweep (ds : List ℚ) (h : ∀ d ∈ ds, (17.0 : ℚ) ≤ d) :
    (ds.length ≤ 102 →
      (runLoop ds start).currentSteps = 10 * (ds.length : Int) ∧
      (runLoop ds start).direction = Direction.Clockwise) ∧
    (ds.length = 103 →
      (runLoop ds start).currentSteps = 1030 ∧
      (runLoop ds start).direction = Direction.CounterClockwise) := by
  rw [threshold_eq] at h
  have up : ∀ xs : List ℚ, (∀ d ∈ xs, (17 : ℚ) ≤ d) → xs.length ≤ 102 →
      runLoop xs start = ⟨10 * (xs.length : Int), true⟩ := by
    intro xs hxs hlen
    have hl : (xs.length : Int) ≤ 102 := by exact_mod_cast hlen
    have := runLoop_clockwise_below xs 0 hxs (le_refl 0) (by omega)
    simpa [start] using this
  constructor
  · intro hlen
    rw [up ds h hlen]
    exact ⟨rfl, rfl⟩
  · intro hlen
    have hne : ds ≠ [] := by
      intro he; rw [he] at hlen; simp at hlen
    have hsplit : ds.dropLast ++ [ds.getLast hne] = ds := List.dropLast_append_getLast hne
    have hlen2 : ds.dropLast.length = 102 := by simp [hlen]
    have hdl : ∀ d ∈ ds.dropLast, (17 : ℚ) ≤ d := fun d hd => h d (List.mem_of_mem_dropLast hd)
    have hlast : (17 : ℚ) ≤ ds.getLast hne := h _ (List.getLast_mem hne)
    rw [← hsplit, runLoop_append_single, up ds.dropLast hdl (by omega), hlen2,
      loop_clockwise_top _ _ hlast (by norm_num)]
    exact ⟨rfl, rfl⟩

/-- C6 witness: the distance 20.0 fed 102 times and 103 times. -/
theorem C6_first_sweep_witness :
    (∀ d ∈ List.replicate 103 (20.0 : ℚ), (17.0 : ℚ) ≤ d) ∧
    ((runLoop (List.replicate 102 20.0) start).currentSteps = 1020 ∧
      (runLoop (List.replicate 102 20.0) start).direction = Direction.Clockwise) ∧
    ((runLoop (List.replicate 103 20.0) start).currentSteps = 1030 ∧
      (runLoop (List.replicate 103 20.0) start).direction = Direction.CounterClockwise) := by
  have h : ∀ n, ∀ d ∈ List.replicate n (20.0 : ℚ), (17.0 : ℚ) ≤ d := by
    intro n d hd
    rw [List.eq_of_mem_replicate hd]
    norm_num
  refine ⟨h 103, ?_, (C6_first_sweep _ (h 103)).2 (by simp)⟩
  have key := (C6_first_sweep _ (h 102)).1 (by simp)
  simpa using key

/-- C7 (direction at the bounds): in every state reached from start-up
(position 0, clockwise) by any finite sequence of runs of `loop()` with
arbitrary distance samples, a position of at least `MAX_STEPS` implies direction
counter-clockwise and a position of at most 0 implies direction clockwise. -/
theorem C7_direction_at_bounds (ds : List ℚ) :
    ((runLoop ds start).currentSteps ≥ MAX_STEPS →
      (runLoop ds start).direction = Direction.CounterClockwise) ∧
    ((runLoop ds start).currentSteps ≤ 0 →
      (runLoop ds start).direction = Direction.Clockwise) := by
  have hs := sweeping_reachable ds
  unfold Sweeping at hs
  unfold Globals.direction
  simp only [MAX_STEPS, ge_iff_le]
  rcases hs with ⟨_, ⟨hb, h0, h1⟩ | ⟨hb, h0, h1⟩⟩ <;> rw [hb] <;> constructor <;> intro hp <;>
    first | rfl | omega

/-- C7 witness: after 103 unobstructed runs the position is 1030, at least
`MAX_STEPS`, and the direction is counter-clockwise; before any run the
position is 0 and the direction is clockwise. -/
theorem C7_direction_at_bounds_witness :
    (runLoop (List.replicate 103 20.0) start).direction = Direction.CounterClockwise ∧
    (runLoop [] start).direction = Direction.Clockwise := by
  have h103 : runLoop (List.replicate 103 20.0) start = ⟨1030, false⟩ := by
    have hsplit : List.replicate 103 (20.0 : ℚ) = List.replicate 102 20.0 ++ [20.0] :=
      List.replicate_succ' 102 20.0
    have hall : ∀ d ∈ List.replicate 102 (20.0 : ℚ), (17 : ℚ) ≤ d := by
      intro d hd
      rw [List.eq_of_mem_replicate hd]
      norm_num
    have hb := runLoop_clockwise_below (List.replicate 102 20.0) 0 hall (le_refl 0)
      (by simp)
    rw [hsplit, runLoop_append_single]
    simp only [start]
    rw [hb, loop_clockwise_top _ _ (by norm_num) (by simp)]
    simp
  exact ⟨(C7_direction_at_bounds (List.replicate 103 20.0)).1 (by rw [h103]; decide),
    (C7_direction_at_bounds []).2 (by decide)⟩

/-- C8 (direction-change notice): in every execution from start-up
(position 0, clockwise), for any sequence of distance samples, a run of `loop()`
prints a direction-change notice if and only if the direction after the run
differs from the direction before it; it then prints exactly one, naming the
new direction. -/
theorem C8_direction_notice (ds : List ℚ) (d : ℚ) :
    directionNotices (loop d (runLoop ds start)).2 =
      if (loop d (runLoop ds start)).1.direction ≠ (runLoop ds start).direction then
        [directionNotice (loop d (runLoop ds start)).1.direction]
      else [] := by
  have hs := sweeping_reachable ds
  generalize runLoop ds start = g at hs ⊢
  rcases lt_or_le d 17 with hd | hd
  · rw [loop_paused_notices d g hd, loop_paused d g hd]
    simp
  · rw [loop_moving_notices d g hd, loop_moving_state d g hd]
    obtain ⟨p, b⟩ := g
    unfold Sweeping at hs
    unfold updateDirection
    simp only [MAX_STEPS, STEP_SIZE, ge_iff_le] at hs ⊢
    rcases hs with ⟨hm, ⟨hb, h0, h1⟩ | ⟨hb, h0, h1⟩⟩ <;> subst hb <;>
      simp only [if_true, if_false, Bool.false_eq_true] <;>
      split_ifs <;> first | omega | simp_all [Globals.direction, directionNotice]

/-- C9 (telemetry pair): every run of `loop()`, paused or not, starts its
output with the telemetry pair `angle`, `","`, `distance`, ahead of the pause
notice and of any motor command, and prints no other comma field separator and
no other float line in that run; `distance` is the sample read in that run and
`angle`, computed as `currentSteps * 0.0 / STEPS_PER_REV` over exact
arithmetic, is 0 whatever the position. -/
theorem C9_telemetry (g : Globals) (d : ℚ) :
    currentAngle g = 0 ∧
    (loop d g).2.take 3 =
      [Effect.printFloat (currentAngle g), Effect.printStr ",", Effect.printlnFloat d] ∧
    (∀ e ∈ (loop d g).2.drop 3, e ≠ Effect.printStr "," ∧ ∀ x, e ≠ Effect.printlnFloat x) ∧
    pauseNotice ∉ (loop d g).2.take 3 ∧ motorCommands ((loop d g).2.take 3) = [] := by
  refine ⟨by unfold currentAngle; norm_num, ?_⟩
  rcases lt_or_le d 17 with hd | hd
  · rw [loop_paused d g hd]
    simp [pauseNotice, motorCommands]
  · rw [loop_moving_output d g hd]
    refine ⟨by simp, ?_, by simp [pauseNotice], by simp [motorCommands]⟩
    intro e he
    have hdrop : ∀ (a b c : Effect) (rest : List Effect),
        List.drop 3 ([a, b, c] ++ rest) = rest := fun _ _ _ _ => rfl
    rw [hdrop] at he
    rcases List.mem_append.mp he with h1 | h2
    · exact moveStepper_other _ g e h1
    · rcases List.mem_append.mp h2 with h3 | h4
      · exact updateDirection_other _ e h3
      · rw [List.mem_singleton.mp h4]; simp

/-- C10 (overshoot bound): in every state reached from start-up (position 0,
clockwise) by any sequence of runs of `loop()` with arbitrary distance samples,
`-(STEP_SIZE - 1) ≤ position ≤ MAX_STEPS + STEP_SIZE - 1`, that is,
`-9 ≤ position ≤ 1033`. -/
theorem C10_overshoot_bound (ds : List ℚ) :
    -(STEP_SIZE - 1) ≤ (runLoop ds start).currentSteps ∧
    (runLoop ds start).currentSteps ≤ MAX_STEPS + STEP_SIZE - 1 ∧
    -(STEP_SIZE - 1) = -9 ∧ MAX_STEPS + STEP_SIZE - 1 = 1033 := by
  have hs := sweeping_reachable ds
  unfold Sweeping at hs
  simp only [MAX_STEPS, STEP_SIZE]
  rcases hs with ⟨_, ⟨_, h0, h1⟩ | ⟨_, h0, h1⟩⟩ <;> omega

/-- C11 (distance conversion and gate threshold on the raw echo): over exact
rational arithmetic `getDistanceCM()` returns `duration * 17 / 1000` for the
echo duration in microseconds, so a run of `loop()` is paused (pause notice
printed, no motor command) if and only if `duration < 1000`, and moves (one
motor command) otherwise; a timeout that yields duration 0 gives distance 0 and
a paused run that leaves the state unchanged. -/
theorem C11_echo_threshold (duration : Int) (g : Globals) :
    getDistanceCM duration = (duration : ℚ) * 17 / 1000 ∧
    (getDistanceCM duration < 17.0 ↔ duration < 1000) ∧
    (pauseNotice ∈ (loop (getDistanceCM duration) g).2 ↔ duration < 1000) ∧
    (motorCommands (loop (getDistanceCM duration) g).2 = [] ↔ duration < 1000) ∧
    ((loop (getDistanceCM duration) g).1 = g ↔ duration < 1000) ∧
    getDistanceCM 0 = 0 ∧
    (loop (getDistanceCM 0) g).1 = g ∧
    motorCommands (loop (getDistanceCM 0) g).2 = [] ∧
    pauseNotice ∈ (loop (getDistanceCM 0) g).2 := by
  have hconv : ∀ n : Int, getDistanceCM n = (n : ℚ) * 17 / 1000 := by
    intro n; unfold getDistanceCM; norm_num; ring
  have hlt : ∀ n : Int, getDistanceCM n < 17 ↔ n < 1000 := by
    intro n
    rw [hconv]
    constructor
    · intro h
      have h2 : (n : ℚ) < 1000 := by linarith
      exact_mod_cast h2
    · intro h
      have h2 : (n : ℚ) < 1000 := by exact_mod_cast h
      linarith
  have hzero : getDistanceCM 0 < 17 := (hlt 0).mpr (by decide)
  refine ⟨hconv duration, by rw [threshold_eq]; exact hlt duration, ?_, ?_, ?_,
    by simp [getDistanceCM], ?_, ?_, ?_⟩
  · constructor
    · intro hmem
      by_contra hge
      have hd : (17 : ℚ) ≤ getDistanceCM duration := not_lt.mp (fun h => hge ((hlt _).mp h))
      rw [loop_moving_output _ g hd] at hmem
      simp only [List.mem_append, List.mem_cons, List.mem_singleton, List.not_mem_nil,
        or_false, pauseNotice] at hmem
      rcases hmem with h | h | h
      · simp at h
      · exact absurd h (by simp [moveStepper])
      · rcases h with h | h
        · unfold updateDirection at h
          split_ifs at h <;> simp at h
        · simp at h
    · intro h
      rw [loop_paused _ g ((hlt _).mpr h)]
      simp [pauseNotice]
  · constructor
    · intro hnil
      by_contra hge
      have hd : (17 : ℚ) ≤ getDistanceCM duration := not_lt.mp (fun h => hge ((hlt _).mp h))
      rw [loop_moving_commands _ g hd] at hnil
      simp at hnil
    · intro h
      rw [loop_paused _ g ((hlt _).mpr h)]
      simp [motorCommands]
  · constructor
    · intro hsame
      by_contra hge
      have hd : (17 : ℚ) ≤ getDistanceCM duration := not_lt.mp (fun h => hge ((hlt _).mp h))
      have hsteps := loop_moving_steps _ g hd
      rw [hsame] at hsteps
      cases hb : g.isClockwise <;> simp [hb, STEP_SIZE] at hsteps
    · intro h
      rw [loop_paused _ g ((hlt _).mpr h)]
  · rw [loop_paused _ g hzero]
  · rw [loop_paused _ g hzero]; simp [motorCommands]
  · rw [loop_paused _ g hzero]; simp [pauseNotice]

/-- C12 (telemetry line format): for every state and every distance sample,
with `Serial.print` and `Serial.println` writing a floating-point value as its
decimal text with any fixed numbers of decimal places, the first line a run of
`loop()` writes is the decimal text of the angle, one `','`, the decimal text of
the distance and a line end; that line holds exactly one comma and exactly one
line feed, and the text on each side of the comma is a numeric field. -/
theorem C12_telemetry_line (pa pd : Nat) (g : Globals) (d : ℚ) :
    serialText (decimalText pa) (decimalText pd) ((loop d g).2.take 3) =
      decimalText pa (currentAngle g) ++ "," ++ decimalText pd d ++ "\r\n" ∧
    serialText (decimalText pa) (decimalText pd) (loop d g).2 =
      serialText (decimalText pa) (decimalText pd) ((loop d g).2.take 3) ++
        serialText (decimalText pa) (decimalText pd) ((loop d g).2.drop 3) ∧
    (serialText (decimalText pa) (decimalText pd) ((loop d g).2.take 3)).toList.count ','
      = 1 ∧
    (serialText (decimalText pa) (decimalText pd) ((loop d g).2.take 3)).toList.count '\n'
      = 1 ∧
    numericField (decimalText pa (currentAngle g)) = true ∧
    numericField (decimalText pd d) = true := by
  have hline : serialText (decimalText pa) (decimalText pd) ((loop d g).2.take 3) =
      decimalText pa (currentAngle g) ++ "," ++ decimalText pd d ++ "\r\n" := by
    rw [loop_output_take]
    simp [serialText, String.append_assoc]
  have hca := decimalText_count pa (currentAngle g) ',' (by decide) (by decide) (by decide)
  have hcd := decimalText_count pd d ',' (by decide) (by decide) (by decide)
  have hna := decimalText_count pa (currentAngle g) '\n' (by decide) (by decide) (by decide)
  have hnd := decimalText_count pd d '\n' (by decide) (by decide) (by decide)
  refine ⟨hline, ?_, ?_, ?_, decimalText_numericField _ _, decimalText_numericField _ _⟩
  · rw [← serialText_append, List.take_append_drop]
  · rw [hline]
    simp only [String.toList, String.data_append, List.count_append] at hca hcd ⊢
    rw [hca, hcd]
    decide
  · rw [hline]
    simp only [String.toList, String.data_append, List.count_append] at hna hnd ⊢
    rw [hna, hnd]
    decide

/-- C12 witness: position 500, clockwise, distance 5, with one decimal place
for the angle and two for the distance: the line is `0.0,5.00` followed by the
line end, and both fields are numeric; `-.-` and `ovf` are not numeric
fields. -/
theorem C12_telemetry_line_witness :
    serialText (decimalText 1) (decimalText 2) ((loop 5 ⟨500, true⟩).2.take 3) =
      "0.0,5.00\r\n" ∧
    (serialText (decimalText 1) (decimalText 2) ((loop 5 ⟨500, true⟩).2.take 3)).toList.count
      ',' = 1 ∧
    numericField (decimalText 2 5) = true ∧
    numericField "-.-" = false ∧ numericField "ovf" = false := by
  have key := C12_telemetry_line 1 2 ⟨500, true⟩ 5
  refine ⟨?_, key.2.2.1, key.2.2.2.2.2, by decide, by decide⟩
  rw [key.1, currentAngle_eq_zero]
  decide

/-- C13 (reachable positions): in every state reached from start-up (position
0, clockwise) by any sequence of runs of `loop()` with arbitrary distance
samples, the position is a multiple of `STEP_SIZE = 10` with
`0 ≤ position ≤ 1030`, so it is never negative; the position 1030 is reached
(after 103 unobstructed runs), and it is 6 steps past `MAX_STEPS`. -/
theorem C13_reachable_positions (ds : List ℚ) :
    (runLoop ds start).currentSteps % STEP_SIZE = 0 ∧ STEP_SIZE = 10 ∧
    0 ≤ (runLoop ds start).currentSteps ∧
    (runLoop ds start).currentSteps ≤ 1030 ∧
    (runLoop (List.replicate 103 20.0) start).currentSteps = 1030 ∧
    (1030 : Int) = MAX_STEPS + 6 := by
  have hs := sweeping_reachable ds
  unfold Sweeping at hs
  have htop := runLoop_unobstructed_top (List.replicate 103 20.0) (replicate_unobstructed 103)
    (by simp)
  refine ⟨hs.1, rfl, ?_, ?_, by rw [htop], by decide⟩
  · rcases hs.2 with ⟨_, h0, _⟩ | ⟨_, h0, _⟩ <;> omega
  · rcases hs.2 with ⟨_, _, h1⟩ | ⟨_, _, h1⟩ <;> omega

/-- C14 (sweep periodicity): starting from position 0, clockwise, and feeding
only distance samples of at least 17.0, the state after exactly 206 runs of
`loop()` is again position 0, clockwise, and after any smaller positive number
of runs it is a different state. -/
theorem C14_sweep_period (ds : List ℚ) (h : ∀ d ∈ ds, (17.0 : ℚ) ≤ d) :
    (ds.length = 206 → runLoop ds start = start) ∧
    (0 < ds.length → ds.length < 206 → runLoop ds start ≠ start) := by
  rw [threshold_eq] at h
  constructor
  · intro hlen
    rw [runLoop_unobstructed_period ds h hlen]
    rfl
  · intro hpos hlt
    rcases Nat.lt_or_ge ds.length 103 with hup | hdown
    · rw [runLoop_unobstructed_up ds h (by omega)]
      intro heq
      have hp := congrArg Globals.currentSteps heq
      simp only [start] at hp
      omega
    · rw [runLoop_unobstructed_down ds h hdown (by omega)]
      intro heq
      have hb := congrArg Globals.isClockwise heq
      simp [start] at hb

/-- C14 witness: the distance 20.0 fed 206 times returns to the start state;
fed 103 times it does not. -/
theorem C14_sweep_period_witness :
    (∀ d ∈ List.replicate 206 (20.0 : ℚ), (17.0 : ℚ) ≤ d) ∧
    runLoop (List.replicate 206 20.0) start = start ∧
    runLoop (List.replicate 103 20.0) start ≠ start := by
  have h : ∀ n, ∀ d ∈ List.replicate n (20.0 : ℚ), (17.0 : ℚ) ≤ d := by
    intro n d hd
    rw [List.eq_of_mem_replicate hd]
    norm_num
  exact ⟨h 206, (C14_sweep_period _ (h 206)).1 (List.length_replicate 206 _),
    (C14_sweep_period _ (h 103)).2 (by rw [List.length_replicate]; decide)
      (by rw [List.length_replicate]; decide)⟩

/-- C15: the travel limit `MAX_STEPS = 1024` is not three quarters of a
revolution of `STEPS_PER_REV = 2048` steps, as the comment on line 22 says, but
one half: `4 * MAX_STEPS = 4096` while `3 * STEPS_PER_REV = 6144`, and
`MAX_STEPS * 360 / STEPS_PER_REV` is 180 degrees, not 270.  An unobstructed
sweep from start-up reverses after 103 runs at position 1030, short of the 1536
steps of three quarters of a turn. -/
theorem C15_travel_limit_is_half_turn :
    4 * MAX_STEPS ≠ 3 * STEPS_PER_REV ∧
    4 * MAX_STEPS = 4096 ∧ 3 * STEPS_PER_REV = 6144 ∧
    2 * MAX_STEPS = STEPS_PER_REV ∧
    MAX_STEPS * 360 / STEPS_PER_REV = 180 ∧
    (MAX_STEPS : ℚ) * 360 / (STEPS_PER_REV : ℚ) = 180 ∧
    runLoop (List.replicate 103 20.0) start = ⟨1030, false⟩ ∧
    4 * (1030 : Int) < 3 * STEPS_PER_REV := by
  refine ⟨by decide, by decide, by decide, by decide, by decide, ?_,
    runLoop_unobstructed_top _ (replicate_unobstructed 103) (List.length_replicate 103 _),
    by decide⟩
  simp only [MAX_STEPS, STEPS_PER_REV]
  norm_num

end Radar
